import Mathlib

/- Shallow embedding of the mp3converter service (src/main.py).
   URLs, tokens and file paths are strings; time.time() is modelled as a natural
   number of seconds; the in-memory dict jobs is an insertion-ordered association
   list, matching Python dict semantics (an update in place keeps the position,
   a new key is appended); current_conversions is a list used as a set; the
   downloads directory is an association list from path to file size. -/

/-- Python dict lookup: the first entry with the given key. -/
def lookupA {α : Type} : List (String × α) → String → Option α
  | [], _ => none
  | (k1, v) :: rest, k => if k1 == k then some v else lookupA rest k

/-- Python dict assignment: replace the value in place if the key is present,
append a new entry otherwise (insertion order preserved). -/
def setA {α : Type} : List (String × α) → String → α → List (String × α)
  | [], k, v => [(k, v)]
  | (k1, v1) :: rest, k, v =>
    if k1 == k then (k, v) :: rest else (k1, v1) :: setA rest k v

/-- In-place mutation of one value of a Python dict (a no-op if the key is absent). -/
def updateA {α : Type} : List (String × α) → String → (α → α) → List (String × α)
  | [], _, _ => []
  | (k1, v) :: rest, k, f =>
    if k1 == k then (k1, f v) :: rest else (k1, v) :: updateA rest k f

/-- Python dict del / os.remove: drop the first entry with the given key. -/
def eraseA {α : Type} : List (String × α) → String → List (String × α)
  | [], _ => []
  | (k1, v) :: rest, k => if k1 == k then rest else (k1, v) :: eraseA rest k

/-- The keys of an association list are pairwise distinct (true of every Python dict). -/
def keysNodup {α : Type} (l : List (String × α)) : Prop := (l.map Prod.fst).Nodup

instance keysNodupDecidable {α : Type} (l : List (String × α)) : Decidable (keysNodup l) :=
  inferInstanceAs (Decidable (l.map Prod.fst).Nodup)

/-- Python set.add on a list used as a set. -/
def insertS (x : String) (l : List String) : List String := if x ∈ l then l else x :: l

/-- Python set.discard on a list used as a set (no error if absent). -/
def eraseS (x : String) : List String → List String
  | [] => []
  | y :: rest => if y == x then rest else y :: eraseS x rest

/-- Python substring containment (the operator in). -/
def pyContains (s sub : String) : Bool := decide (sub.data <:+: s.data)

/-- Python str.endswith. -/
def pyEndsWith (s suf : String) : Bool := List.isSuffixOf suf.data s.data

/-- Python str.startswith. -/
def pyStartsWith (s pre : String) : Bool := List.isPrefixOf pre.data s.data

/-- Drop the first n characters of a string. -/
def strDrop (s : String) (n : Nat) : String := String.mk (s.data.drop n)

/-- Python str.split with a non-empty separator, scanning left to right over
non-overlapping occurrences; the fuel argument starts above the input length
and is never exhausted. -/
def pySplitAux (sep : List Char) : Nat → List Char → List Char → List (List Char)
  | 0, l, acc => [acc.reverse ++ l]
  | fuel + 1, l, acc =>
    match l with
    | [] => [acc.reverse]
    | c :: rest =>
      if List.isPrefixOf sep (c :: rest) then
        acc.reverse :: pySplitAux sep fuel ((c :: rest).drop sep.length) []
      else pySplitAux sep fuel rest (acc ++ [c])

/-- Python s.split(sep) for a non-empty sep. -/
def pySplit (s sep : String) : List String :=
  (pySplitAux sep.data (s.data.length + 1) s.data []).map (fun l => String.mk l)

/-- Python sep.join(parts). -/
def joinWith (sep : String) : List String → String
  | [] => ""
  | [x] => x
  | x :: y :: rest => x ++ sep ++ joinWith sep (y :: rest)

/-- Python os.path.basename for POSIX paths: the part after the last slash. -/
def pyBasename (s : String) : String := (pySplit s "/").getLastD s

/-- Python s.rsplit(".", 1)[0]: everything before the last dot, or s itself
when there is no dot. -/
def pyStripLastDot (s : String) : String :=
  let parts := pySplit s "."
  if parts.length ≤ 1 then s else joinWith "." parts.dropLast

-- Basic lemmas about the association-list operations.

theorem lookupA_setA_self {α : Type} (l : List (String × α)) (k : String) (v : α) :
    lookupA (setA l k v) k = some v := by
  induction l with
  | nil => simp [setA, lookupA]
  | cons hd tl ih =>
    obtain ⟨k1, v1⟩ := hd
    by_cases h : k1 = k
    · simp [setA, lookupA, h]
    · simp [setA, lookupA, h, ih]

theorem lookupA_setA_ne {α : Type} (l : List (String × α)) (k k' : String) (v : α)
    (h : k' ≠ k) : lookupA (setA l k v) k' = lookupA l k' := by
  induction l with
  | nil => simp [setA, lookupA, Ne.symm h]
  | cons hd tl ih =>
    obtain ⟨k1, v1⟩ := hd
    by_cases h1 : k1 = k
    · subst h1
      simp [setA, lookupA, Ne.symm h]
    · simp only [setA]
      rw [if_neg (by simpa using h1)]
      by_cases h2 : k1 = k'
      · simp [lookupA, h2]
      · simp [lookupA, h2, ih]

theorem lookupA_updateA_self {α : Type} (l : List (String × α)) (k : String) (f : α → α) :
    lookupA (updateA l k f) k = (lookupA l k).map f := by
  induction l with
  | nil => simp [updateA, lookupA]
  | cons hd tl ih =>
    obtain ⟨k1, v1⟩ := hd
    by_cases h : k1 = k
    · simp [updateA, lookupA, h]
    · simp [updateA, lookupA, h, ih]

theorem lookupA_updateA_ne {α : Type} (l : List (String × α)) (k k' : String) (f : α → α)
    (h : k' ≠ k) : lookupA (updateA l k f) k' = lookupA l k' := by
  induction l with
  | nil => simp [updateA, lookupA]
  | cons hd tl ih =>
    obtain ⟨k1, v1⟩ := hd
    by_cases h1 : k1 = k
    · subst h1
      simp [updateA, lookupA, Ne.symm h]
    · simp only [updateA]
      rw [if_neg (by simpa using h1)]
      by_cases h2 : k1 = k'
      · simp [lookupA, h2]
      · simp [lookupA, h2, ih]

theorem lookupA_eraseA_ne {α : Type} (l : List (String × α)) (k k' : String)
    (h : k' ≠ k) : lookupA (eraseA l k) k' = lookupA l k' := by
  induction l with
  | nil => simp [eraseA]
  | cons hd tl ih =>
    obtain ⟨k1, v1⟩ := hd
    by_cases h1 : k1 = k
    · subst h1
      simp [eraseA, lookupA, Ne.symm h]
    · simp only [eraseA]
      rw [if_neg (by simpa using h1)]
      by_cases h2 : k1 = k'
      · simp [lookupA, h2]
      · simp [lookupA, h2, ih]

theorem lookupA_none_of_not_mem_keys {α : Type} {l : List (String × α)} {k : String}
    (h : k ∉ l.map Prod.fst) : lookupA l k = none := by
  induction l with
  | nil => simp [lookupA]
  | cons hd tl ih =>
    obtain ⟨k1, v1⟩ := hd
    have h1 : k1 ≠ k := by
      intro hh
      exact h (by simp [hh])
    simp only [lookupA]
    rw [if_neg (by simpa using h1)]
    exact ih (by
      intro hmem
      exact h (by simp only [List.map_cons, List.mem_cons]; exact Or.inr hmem))

theorem lookupA_eraseA_self {α : Type} (l : List (String × α)) (k : String)
    (hnd : keysNodup l) : lookupA (eraseA l k) k = none := by
  induction l with
  | nil => simp [eraseA, lookupA]
  | cons hd tl ih =>
    obtain ⟨k1, v1⟩ := hd
    have hnd0 : k1 ∉ tl.map Prod.fst ∧ (tl.map Prod.fst).Nodup := by
      simpa [keysNodup] using hnd
    by_cases h1 : k1 = k
    · subst h1
      simp only [eraseA, beq_self_eq_true, if_true]
      exact lookupA_none_of_not_mem_keys hnd0.1
    · simp only [eraseA]
      rw [if_neg (by simpa using h1)]
      simp only [lookupA]
      rw [if_neg (by simpa using h1)]
      exact ih hnd0.2

theorem lookupA_mem {α : Type} {l : List (String × α)} {k : String} {v : α}
    (h : lookupA l k = some v) : (k, v) ∈ l := by
  induction l with
  | nil => simp [lookupA] at h
  | cons hd tl ih =>
    obtain ⟨k1, v1⟩ := hd
    by_cases h1 : k1 = k
    · subst h1
      simp [lookupA] at h
      simp [h]
    · simp only [lookupA] at h
      rw [if_neg (by simpa using h1)] at h
      exact List.mem_cons_of_mem _ (ih h)

theorem mem_keys_of_lookupA {α : Type} {l : List (String × α)} {k : String} {v : α}
    (h : lookupA l k = some v) : k ∈ l.map Prod.fst := by
  by_contra hk
  rw [lookupA_none_of_not_mem_keys hk] at h
  exact Option.noConfusion h

theorem lookupA_of_mem_nodup {α : Type} {l : List (String × α)} {k : String} {v : α}
    (hmem : (k, v) ∈ l) (hnd : keysNodup l) : lookupA l k = some v := by
  induction l with
  | nil => simp at hmem
  | cons hd tl ih =>
    obtain ⟨k1, v1⟩ := hd
    have hnd0 : k1 ∉ tl.map Prod.fst ∧ (tl.map Prod.fst).Nodup := by
      simpa [keysNodup] using hnd
    rcases List.mem_cons.mp hmem with hh | hh
    · cases hh
      simp [lookupA]
    · have h1 : k1 ≠ k := by
        intro he
        subst he
        exact hnd0.1 (by simpa using List.mem_map_of_mem Prod.fst hh)
      simp only [lookupA]
      rw [if_neg (by simpa using h1)]
      exact ih hh hnd0.2

theorem keys_setA {α : Type} (l : List (String × α)) (k : String) (v : α) :
    (setA l k v).map Prod.fst =
      if k ∈ l.map Prod.fst then l.map Prod.fst else l.map Prod.fst ++ [k] := by
  induction l with
  | nil => simp [setA]
  | cons hd tl ih =>
    obtain ⟨k1, v1⟩ := hd
    by_cases h1 : k1 = k
    · subst h1
      simp [setA]
    · simp only [setA]
      rw [if_neg (by simpa using h1)]
      by_cases h2 : k ∈ tl.map Prod.fst
      · simp [ih, h2, h1, Ne.symm h1]
      · simp [ih, h2, h1, Ne.symm h1]

theorem keysNodup_setA {α : Type} (l : List (String × α)) (k : String) (v : α)
    (hnd : keysNodup l) : keysNodup (setA l k v) := by
  unfold keysNodup
  rw [keys_setA]
  by_cases h : k ∈ l.map Prod.fst
  · simpa [h] using hnd
  · simp only [h, if_false]
    exact List.Nodup.append hnd (List.nodup_singleton k) (by
      intro a ha hb
      simp at hb
      subst hb
      exact h ha)

theorem keys_updateA {α : Type} (l : List (String × α)) (k : String) (f : α → α) :
    (updateA l k f).map Prod.fst = l.map Prod.fst := by
  induction l with
  | nil => simp [updateA]
  | cons hd tl ih =>
    obtain ⟨k1, v1⟩ := hd
    by_cases h1 : k1 = k
    · simp [updateA, h1]
    · simp only [updateA]
      rw [if_neg (by simpa using h1)]
      simp [ih]

theorem keysNodup_updateA {α : Type} (l : List (String × α)) (k : String) (f : α → α)
    (hnd : keysNodup l) : keysNodup (updateA l k f) := by
  unfold keysNodup
  rw [keys_updateA]
  exact hnd

theorem keysNodup_filter {α : Type} (l : List (String × α)) (p : String × α → Bool)
    (hnd : keysNodup l) : keysNodup (l.filter p) := by
  exact hnd.sublist ((List.filter_sublist l).map Prod.fst)

theorem lookupA_filter_none {α : Type} {l : List (String × α)} {k : String}
    (p : String × α → Bool) (h : lookupA l k = none) :
    lookupA (l.filter p) k = none := by
  induction l with
  | nil => simp [lookupA]
  | cons hd tl ih =>
    obtain ⟨k1, v1⟩ := hd
    by_cases h1 : k1 = k
    · subst h1
      simp [lookupA] at h
    · simp only [lookupA] at h
      rw [if_neg (by simpa using h1)] at h
      by_cases hp : p (k1, v1)
      · simp only [List.filter_cons, hp, if_true]
        simp only [lookupA]
        rw [if_neg (by simpa using h1)]
        exact ih h
      · simp only [List.filter_cons, hp, Bool.false_eq_true, if_false]
        exact ih h

theorem lookupA_filter_eq {α : Type} {l : List (String × α)} {k : String} {v : α}
    (p : String × α → Bool) (hnd : keysNodup l) (h : lookupA l k = some v) :
    lookupA (l.filter p) k = if p (k, v) then some v else none := by
  induction l with
  | nil => simp [lookupA] at h
  | cons hd tl ih =>
    obtain ⟨k1, v1⟩ := hd
    have hnd0 : k1 ∉ tl.map Prod.fst ∧ (tl.map Prod.fst).Nodup := by
      simpa [keysNodup] using hnd
    by_cases h1 : k1 = k
    · subst h1
      simp only [lookupA, beq_self_eq_true, if_true] at h
      cases h
      by_cases hp : p (k1, v)
      · simp [List.filter_cons, hp, lookupA]
      · simp only [List.filter_cons, hp, Bool.false_eq_true, if_false]
        exact lookupA_filter_none p (lookupA_none_of_not_mem_keys hnd0.1)
    · simp only [lookupA] at h
      rw [if_neg (by simpa using h1)] at h
      have hres := ih hnd0.2 h
      by_cases hp : p (k1, v1)
      · simp only [List.filter_cons, hp, if_true]
        simp only [lookupA]
        rw [if_neg (by simpa using h1)]
        exact hres
      · simp only [List.filter_cons, hp, Bool.false_eq_true, if_false]
        exact hres

theorem eraseS_of_not_mem {l : List String} {x : String} (h : x ∉ l) :
    eraseS x l = l := by
  induction l with
  | nil => simp [eraseS]
  | cons y rest ih =>
    have hy : y ≠ x := by
      intro hh
      exact h (by simp [hh])
    simp only [eraseS]
    rw [if_neg (by simpa using hy)]
    rw [ih (fun hm => h (List.mem_cons_of_mem _ hm))]

theorem eraseS_insertS_of_not_mem {l : List String} {x : String} (h : x ∉ l) :
    eraseS x (insertS x l) = l := by
  simp [insertS, h, eraseS]

-- Configuration constants from src/main.py.

/-- FILE_EXPIRY_MINUTES = 10. -/
def FILE_EXPIRY_MINUTES : Nat := 10

/-- MAX_CONCURRENT_CONVERSIONS = 10 (size of the conversion semaphore). -/
def MAX_CONCURRENT_CONVERSIONS : Nat := 10

/-- The four status strings a job record can carry in src/main.py. -/
inductive Status where
  | queued
  | processing
  | completed
  | failed
deriving DecidableEq, Repr

/-- One job record: the dict stored in jobs[token]. Every key that some record
literal in src/main.py sets is a field here; keys absent from a given record
are none. -/
structure Job where
  status : Status
  url : String
  filename : Option String := none
  progress : Option String := none
  video_title : Option String := none
  start_time : Option Nat := none
  file_path : Option String := none
  expires_at : Option Nat := none
  file_size : Option Nat := none
  conversion_time : Option Nat := none
  error : Option String := none
deriving DecidableEq, Repr

/-- Metadata returned by get_video_info (both the yt-dlp and the API shape). -/
structure VideoInfo where
  title : String
  duration : Nat
  thumbnail : String
  uploader : String
  view_count : Nat
  id : String
deriving DecidableEq, Repr

/-- jobs[token] = 'status': 'queued', 'url': url  (line 452). -/
def queuedRec (url : String) : Job := { status := Status.queued, url := url }

/-- The processing record written at line 338. -/
def processingRec (url filename title : String) (now : Nat) : Job :=
  { status := Status.processing, url := url, filename := some filename,
    progress := some "Starting download...", video_title := some title,
    start_time := some now }

/-- The completed record written at line 402. -/
def completedRec (url fp : String) (size : Nat) (title : String) (startT now : Nat) : Job :=
  { status := Status.completed, url := url, filename := some (pyBasename fp),
    file_path := some fp, expires_at := some (now + FILE_EXPIRY_MINUTES * 60),
    video_title := some title, file_size := some size,
    conversion_time := some (now - startT) }

/-- The failed record written at line 416 in the except handler. -/
def failedRec (url err title : String) : Job :=
  { status := Status.failed, url := url, error := some err, video_title := some title }

-- Helper functions of src/main.py.

/-- sanitize_filename (lines 121-124): drop filesystem-hostile characters,
strip surrounding whitespace, truncate to 100 characters. -/
def sanitize_filename (title : String) : String :=
  let bad : List Char := ['\\', '/', '*', '?', ':', '"', '<', '>', '|']
  let cleaned : List Char := title.data.filter (fun c => !(bad.contains c))
  let stripped : List Char :=
    ((cleaned.dropWhile Char.isWhitespace).reverse.dropWhile Char.isWhitespace).reverse
  String.mk (stripped.take 100)

/-- get_video_id (lines 135-142). -/
def get_video_id (url : String) : Option String :=
  if pyContains url "youtu.be" then
    some ((pySplit url "/").getLastD "")
  else if pyContains url "youtube.com" then
    if pyContains url "v=" then
      some ((pySplit ((pySplit url "v=").getD 1 "") "&").headD "")
    else none
  else none

/-- get_video_info (lines 169-219). The effectful collaborators are passed in as
oracles: cached is the parsed cache file for the video id together with its
cache_time (none when the cache file is absent or unreadable), now is
time.time(), ytdlp is the yt-dlp extract_info result (none when yt-dlp raised),
and api is the YouTube Data API fallback result (error = the message of the
exception it raised). Cache writing is a side effect on the cache directory
only and is not modelled. -/
def get_video_info (url : String) (cached : Option (Nat × VideoInfo)) (now : Nat)
    (ytdlp : Option VideoInfo) (api : Except String VideoInfo) : Except String VideoInfo :=
  match get_video_id url with
  | none => Except.error "Invalid YouTube URL"
  | some _ =>
    let fresh : Except String VideoInfo :=
      match ytdlp with
      | some info => Except.ok info
      | none => api
    match cached with
    | some (ctime, info) => if now - ctime < 3600 then Except.ok info else fresh
    | none => fresh

/-- YOUTUBE_REGEX (line 38) as a matcher for the regular expression
(https?://)?(www\.)?(youtube\.com|youtu\.?be)/.+ anchored at the start, with
the pattern .+ read as at least one character. The optional groups and the
alternation are deterministic on the inputs concerned because their branches
start with distinct literals. -/
def youtubeRegexMatch (s : String) : Bool :=
  let s1 := if pyStartsWith s "https://" then strDrop s 8
            else if pyStartsWith s "http://" then strDrop s 7 else s
  let s2 := if pyStartsWith s1 "www." then strDrop s1 4 else s1
  let tailOK : String → Bool := fun t => pyStartsWith t "/" && t.data.length ≥ 2
  (pyStartsWith s2 "youtube.com" && tailOK (strDrop s2 11))
    || (pyStartsWith s2 "youtu.be" && tailOK (strDrop s2 8))
    || (pyStartsWith s2 "youtube" && tailOK (strDrop s2 7))

-- The download retry loop of convert_video (lines 360-374).

/-- The option fields of get_ydl_opts that the retry loop mutates: the format
selector and the youtube player_client extractor argument (lines 229, 260,
372-373). The quality tier only picks the target bitrate and is irrelevant to
the control flow. -/
structure YdlOpts where
  format : String
  player_client : List String
deriving DecidableEq, Repr

/-- The initial options returned by get_ydl_opts (lines 229 and 260). -/
def initialOpts : YdlOpts :=
  { format := "bestaudio/best", player_client := ["android", "web"] }

/-- The option mutation performed after a failed attempt (lines 372-373),
where attempt is the index of the attempt that has just failed. -/
def relaxOpts (attempt : Nat) (o : YdlOpts) : YdlOpts :=
  { o with
    format := if attempt == 0 then "bestaudio/best" else "bestaudio",
    player_client := if attempt == 1 then ["android"] else ["web"] }

/-- max_attempts = 3 (line 361). -/
def maxAttempts : Nat := 3

/-- Observable events of the retry loop: one extractor invocation (with the
options it ran under), or one backoff sleep of the given number of seconds. -/
inductive DlEvent where
  | invoke (attempt : Nat) (opts : YdlOpts)
  | sleep (secs : Nat)
deriving DecidableEq, Repr

/-- The for-loop of lines 362-374. outcome says what ydl.download would do at a
given attempt index under given options (none = success, some e = exception
message). Returns the trace of events and the final result (none = the loop
broke out on success, some e = the last attempt raised e, re-raised at line
369). The fuel argument is maxAttempts - attempt and is never exhausted when
starting from attempt 0 with fuel maxAttempts. -/
def downloadLoop (outcome : Nat → YdlOpts → Option String) :
    Nat → Nat → YdlOpts → List DlEvent × Option String
  | 0, _, _ => ([], none)
  | fuel + 1, attempt, opts =>
    match outcome attempt opts with
    | none => ([DlEvent.invoke attempt opts], none)
    | some e =>
      if attempt == maxAttempts - 1 then ([DlEvent.invoke attempt opts], some e)
      else
        let rest := downloadLoop outcome fuel (attempt + 1) (relaxOpts attempt opts)
        (DlEvent.invoke attempt opts :: DlEvent.sleep 2 :: rest.1, rest.2)

/-- The whole retry loop as executed by convert_video. -/
def runDownload (outcome : Nat → YdlOpts → Option String) : List DlEvent × Option String :=
  downloadLoop outcome maxAttempts 0 initialOpts

/-- The extractor invocations of a trace, in order. -/
def invokesOf (tr : List DlEvent) : List (Nat × YdlOpts) :=
  tr.filterMap (fun e =>
    match e with
    | DlEvent.invoke a o => some (a, o)
    | DlEvent.sleep _ => none)

/-- The options the loop uses at each attempt index. -/
def optsSeq : Nat → YdlOpts
  | 0 => initialOpts
  | n + 1 => relaxOpts n (optsSeq n)

-- Locating and validating the output file (lines 376-411).

/-- Lines 377-388: probe output_path + ext for each candidate extension in
order, then the bare output_path; none models the FileNotFoundError raise. -/
def locateOutput (files : List (String × Nat)) (op : String) : Option String :=
  match [".mp3", ".m4a", ".webm", ".part"].find?
      (fun ext => (lookupA files (op ++ ext)).isSome) with
  | some ext => some (op ++ ext)
  | none => if (lookupA files op).isSome then some op else none

/-- Lines 390-393: the name the located file is renamed to when it does not
already end in .mp3 (actual_file.rsplit yields everything before the last dot). -/
def mp3Target (f : String) : String :=
  if pyEndsWith f ".mp3" then f else pyStripLastDot f ++ ".mp3"

/-- os.rename on the modelled directory: the entry moves to the new path,
keeping its size (the target is overwritten when present, as on POSIX). -/
def renameF (files : List (String × Nat)) (oldP newP : String) : List (String × Nat) :=
  match lookupA files oldP with
  | some sz => setA (eraseA files oldP) newP sz
  | none => files

/-- The directory contents after the conditional rename of lines 390-393. -/
def afterRename (files : List (String × Nat)) (f : String) : List (String × Nat) :=
  if pyEndsWith f ".mp3" then files else renameF files f (pyStripLastDot f ++ ".mp3")

/-- Lines 376-411: locate the output, normalize its extension, reject undersized
files (delete + fail), otherwise build the completed record. Any raise inside
this segment is caught by the except handler of line 414, which writes the
failed record with the exception message; the returned Job is the record the
worker ends up storing, and the returned list is the directory contents after
the segment. -/
def finishDownload (files : List (String × Nat)) (op url title : String)
    (startT now : Nat) : List (String × Nat) × Job :=
  match locateOutput files op with
  | none => (files, failedRec url "No output file found after conversion" title)
  | some f =>
    let f2 := mp3Target f
    let files2 := afterRename files f
    let size := (lookupA files2 f2).getD 0
    if size < 100 * 1024 then
      (eraseA files2 f2,
        failedRec url ("File too small (" ++ toString size ++ " bytes), likely incomplete") title)
    else
      (files2, completedRec url f2 size title startT now)

-- The system state and its atomic transitions.

/-- Program position of one convert_video task. started: the background task
exists (possibly still queued behind the semaphore) but the body of
convert_video has not run yet. downloading: the synchronous slice from the
duplicate check through the processing-record write has run (lines 327-358;
get_video_info never awaits a true suspension point, so this whole slice is
atomic on the event loop) and the task is inside the retry loop, op being
output_path and title the resolved video title. A task that has terminated is
removed from the worker list. -/
inductive WPhase where
  | started
  | downloading (op : String) (title : String)
deriving DecidableEq, Repr

/-- One background conversion task, as spawned by start_conversion. -/
structure Worker where
  token : String
  url : String
  phase : WPhase
deriving DecidableEq, Repr

/-- The mutable state of src/main.py: the jobs dict, current_conversions, the
contents of the downloads directory (path to size), the set of in-flight
background tasks, and the set of every token ever issued (uuid4 tokens are
globally fresh; used records them so freshness can be stated). -/
structure Sys where
  jobs : List (String × Job)
  cc : List String
  files : List (String × Nat)
  workers : List Worker
  used : List String
deriving DecidableEq, Repr

/-- The state at process start. -/
def initSys : Sys := { jobs := [], cc := [], files := [], workers := [], used := [] }

/-- next((k for k, v in jobs.items() if v.get('url') == url and
v.get('status') == 'processing'), None)  (line 447). -/
def findProcessing (jobs : List (String × Job)) (url : String) : Option String :=
  (jobs.find? (fun tj => tj.2.url == url && tj.2.status == Status.processing)).map Prod.fst

/-- POST /convert (lines 443-459): the state change and the token returned.
t is the uuid4 token generated at line 451. The claimed quality tier does not
influence this handler's control flow and is omitted. -/
def start_conversion (s : Sys) (url : String) (t : String) : Sys × String :=
  let created : Sys × String :=
    ({ s with jobs := setA s.jobs t (queuedRec url),
              workers := s.workers ++ [{ token := t, url := url, phase := WPhase.started }],
              used := t :: s.used }, t)
  if url ∈ s.cc then
    match findProcessing s.jobs url with
    | some existing => (s, existing)
    | none => created
  else created

/-- GET /status/token (lines 461-466). -/
def get_status (s : Sys) (token : String) : Except (Nat × String) Job :=
  match lookupA s.jobs token with
  | none => Except.error (404, "Job not found")
  | some j => Except.ok j

/-- GET /download/token (lines 468-488): the state change plus the response,
ok carrying the served file path and the attachment filename. -/
def download_file (s : Sys) (token : String) (now : Nat) :
    Sys × Except (Nat × String) (String × String) :=
  match lookupA s.jobs token with
  | none => (s, Except.error (404, "File not ready or expired"))
  | some job =>
    if job.status ≠ Status.completed then
      (s, Except.error (404, "File not ready or expired"))
    else
      match job.file_path with
      | none => (s, Except.error (404, "File not found"))
      | some p =>
        if (lookupA s.files p).isNone then (s, Except.error (404, "File not found"))
        else
          let bump : Job → Job :=
            fun j => { j with expires_at := some (now + FILE_EXPIRY_MINUTES * 60) }
          ({ s with jobs := updateA s.jobs token bump },
            Except.ok (p, job.filename.getD ""))

/-- POST /video/metadata (lines 490-495): any exception from get_video_info is
turned into a 400 response carrying the exception message. -/
def get_metadata (url : String) (cached : Option (Nat × VideoInfo)) (now : Nat)
    (ytdlp : Option VideoInfo) (api : Except String VideoInfo) :
    Except (Nat × String) VideoInfo :=
  match get_video_info url cached now ytdlp api with
  | Except.ok i => Except.ok i
  | Except.error e => Except.error (400, e)

/-- Remove the task with the given token from the in-flight list. -/
def removeW (ws : List Worker) (t : String) : List Worker :=
  ws.filter (fun w => !(w.token == t))

/-- Move the task with the given token to a new phase. -/
def setW (ws : List Worker) (t : String) (ph : WPhase) : List Worker :=
  ws.map (fun w => if w.token == t then { w with phase := ph } else w)

/-- The first synchronous slice of convert_video (lines 326-358 plus, on the
exception paths, the handler of lines 414-421 and the finally of line 423):
the in-worker duplicate check, current_conversions.add, get_video_info, and
either the processing-record write or the failed-record write followed by
current_conversions.discard. Note that on the duplicate path the discard at
line 423 runs even though this task never added the url, removing the
membership added by the other in-flight task for the same url. -/
def applyBegin (s : Sys) (w : Worker) (cached : Option (Nat × VideoInfo)) (now : Nat)
    (ytdlp : Option VideoInfo) (api : Except String VideoInfo) : Sys :=
  if w.url ∈ s.cc then
    { s with
      jobs := setA s.jobs w.token
        (failedRec w.url "400: This video is already being converted" "Unknown"),
      cc := eraseS w.url s.cc,
      workers := removeW s.workers w.token }
  else
    let cc1 := insertS w.url s.cc
    match get_video_info w.url cached now ytdlp api with
    | Except.error e =>
      { s with
        jobs := setA s.jobs w.token (failedRec w.url e "Unknown"),
        cc := eraseS w.url cc1,
        workers := removeW s.workers w.token }
    | Except.ok info =>
      let base := sanitize_filename info.title ++ "-" ++ info.id
      { s with
        jobs := setA s.jobs w.token (processingRec w.url (base ++ ".mp3") info.title now),
        cc := cc1,
        workers := setW s.workers w.token
          (WPhase.downloading ("downloads/" ++ base) info.title) }

/-- Union of the files the extractor wrote into the downloads directory. -/
def writeAll (files : List (String × Nat)) (written : List (String × Nat)) :
    List (String × Nat) :=
  written.foldl (fun fs pv => setA fs pv.1 pv.2) files

/-- The remainder of convert_video after the processing-record write: the retry
loop (lines 360-374), then on success the synchronous output handling and
completed-record write (lines 376-411), or on exhausted retries the failed
record (lines 414-421), and in every case the finally discard (line 423).
outcome is the extractor oracle for each attempt, written the files the
extractor left in the downloads directory (merged before the output probing;
on failed runs these model stray partial downloads). start_time is read back
from the job record as at line 400. -/
def applyRun (s : Sys) (w : Worker) (op title : String)
    (outcome : Nat → YdlOpts → Option String) (written : List (String × Nat))
    (now : Nat) : Sys :=
  let files1 := writeAll s.files written
  match (runDownload outcome).2 with
  | some e =>
    { s with files := files1,
             jobs := setA s.jobs w.token (failedRec w.url e title),
             cc := eraseS w.url s.cc,
             workers := removeW s.workers w.token }
  | none =>
    let startT := ((lookupA s.jobs w.token).bind Job.start_time).getD 0
    let fin := finishDownload files1 op w.url title startT now
    { s with files := fin.1,
             jobs := setA s.jobs w.token fin.2,
             cc := eraseS w.url s.cc,
             workers := removeW s.workers w.token }

/-- One progress_hook firing (lines 349-356): the hook only rewrites the
progress entry of the job record; msg is the formatted progress string. -/
def applyProgress (s : Sys) (w : Worker) (msg : String) : Sys :=
  { s with jobs := updateA s.jobs w.token (fun j => { j with progress := some msg }) }

/-- One tick of cleanup_old_files (lines 425-440): first the file deletions
(os.remove for each job whose expires_at - defaulting to 0 when absent - is in
the past and whose file_path exists on disk), then the record deletions (del
jobs[token] for those of them whose status is not processing). The Python loop
iterates over a snapshot and interleaves both deletions per record; splitting
into two passes is equivalent because tokens are unique, record deletion never
affects the directory, and file deletion never reads the jobs dict. -/
def reapFiles (now : Nat) (files : List (String × Nat)) (entries : List (String × Job)) :
    List (String × Nat) :=
  entries.foldl (fun fs tj =>
    if tj.2.expires_at.getD 0 < now then
      match tj.2.file_path with
      | some p => if (lookupA fs p).isSome then eraseA fs p else fs
      | none => fs
    else fs) files

/-- The record-deletion pass of one reaper tick. -/
def reapTick (now : Nat) (s : Sys) : Sys :=
  { s with
    files := reapFiles now s.files s.jobs,
    jobs := s.jobs.filter
      (fun tj => !(tj.2.expires_at.getD 0 < now && tj.2.status != Status.processing)) }

/-- The atomic transitions of the running service, one constructor per
synchronous slice of src/main.py. enqueue requires the uuid4 token to be
globally fresh; reap requires time.time() to be positive. -/
inductive Step : Sys → Sys → Prop where
  | enqueue (s : Sys) (url t : String) (hf : t ∉ s.used) :
      Step s (start_conversion s url t).1
  | workerBegin (s : Sys) (w : Worker) (hw : w ∈ s.workers)
      (hph : w.phase = WPhase.started) (cached : Option (Nat × VideoInfo)) (now : Nat)
      (ytdlp : Option VideoInfo) (api : Except String VideoInfo) :
      Step s (applyBegin s w cached now ytdlp api)
  | workerRun (s : Sys) (w : Worker) (op title : String) (hw : w ∈ s.workers)
      (hph : w.phase = WPhase.downloading op title)
      (outcome : Nat → YdlOpts → Option String) (written : List (String × Nat))
      (now : Nat) :
      Step s (applyRun s w op title outcome written now)
  | progressUpdate (s : Sys) (w : Worker) (op title : String) (hw : w ∈ s.workers)
      (hph : w.phase = WPhase.downloading op title) (msg : String) :
      Step s (applyProgress s w msg)
  | download (s : Sys) (t : String) (now : Nat) :
      Step s (download_file s t now).1
  | reap (s : Sys) (now : Nat) (hn : 0 < now) :
      Step s (reapTick now s)

/-- States the service can actually be in after any interleaving of requests,
worker slices and reaper ticks. -/
def Reachable (s : Sys) : Prop := Relation.ReflTransGen Step initSys s

/-- Position of a status along Queued, Processing, terminal. -/
def stage : Status → Nat
  | Status.queued => 0
  | Status.processing => 1
  | Status.completed => 2
  | Status.failed => 2

/-- Whether a status is terminal. -/
def isTerminal : Status → Bool
  | Status.completed => true
  | Status.failed => true
  | _ => false

-- Worker-list lemmas.

theorem mem_removeW {ws : List Worker} {t : String} {w : Worker} :
    w ∈ removeW ws t ↔ w ∈ ws ∧ w.token ≠ t := by
  simp [removeW, List.mem_filter]

theorem tokens_setW (ws : List Worker) (t : String) (ph : WPhase) :
    (setW ws t ph).map Worker.token = ws.map Worker.token := by
  simp only [setW, List.map_map]
  apply List.map_congr_left
  intro w _
  by_cases h : w.token = t
  · simp [Function.comp, h]
  · simp [Function.comp, h]

theorem mem_setW {ws : List Worker} {t : String} {ph : WPhase} {w' : Worker}
    (h : w' ∈ setW ws t ph) :
    ∃ w0, w0 ∈ ws ∧ w' = (if w0.token = t then { w0 with phase := ph } else w0) := by
  simp only [setW, List.mem_map] at h
  obtain ⟨w0, hw0, he⟩ := h
  refine ⟨w0, hw0, ?_⟩
  by_cases hc : w0.token = t <;> simp [← he, hc]

theorem token_inj {ws : List Worker} (hnd : (ws.map Worker.token).Nodup)
    {w1 w2 : Worker} (h1 : w1 ∈ ws) (h2 : w2 ∈ ws) (he : w1.token = w2.token) :
    w1 = w2 :=
  List.inj_on_of_nodup_map hnd h1 h2 he

-- The state invariant maintained by every transition.

/-- Structural facts that hold in every reachable state: dict keys are unique,
every job token and worker token was issued by enqueue, no two in-flight tasks
share a token, a started task's record is still queued (or was pruned by the
reaper), a task inside the retry loop has a processing record, and every
completed record carries a file_size of at least 100 KiB. -/
structure SysInv (s : Sys) : Prop where
  jobsNodup : keysNodup s.jobs
  jobsUsed : ∀ t j, lookupA s.jobs t = some j → t ∈ s.used
  workersUsed : ∀ w, w ∈ s.workers → w.token ∈ s.used
  workersNodup : (s.workers.map Worker.token).Nodup
  startedRec : ∀ w, w ∈ s.workers → w.phase = WPhase.started →
      lookupA s.jobs w.token = none ∨
        ∃ j, lookupA s.jobs w.token = some j ∧ j.status = Status.queued
  downloadingRec : ∀ w op title, w ∈ s.workers → w.phase = WPhase.downloading op title →
      ∃ j, lookupA s.jobs w.token = some j ∧ j.status = Status.processing
  completedSize : ∀ t j, lookupA s.jobs t = some j → j.status = Status.completed →
      ∃ n, j.file_size = some n ∧ 100 * 1024 ≤ n

theorem inv_init : SysInv initSys := by
  constructor <;> simp [initSys, keysNodup, lookupA]

/-- The completed record produced by the output-validation segment always
records a size of at least 100 KiB, read back from the directory. -/
theorem finishDownload_completed {files : List (String × Nat)} {op url title : String}
    {startT now : Nat}
    (h : (finishDownload files op url title startT now).2.status = Status.completed) :
    ∃ f sz, locateOutput files op = some f ∧
      ¬(sz < 100 * 1024) ∧
      (lookupA (afterRename files f) (mp3Target f)).getD 0 = sz ∧
      (finishDownload files op url title startT now).1 = afterRename files f ∧
      (finishDownload files op url title startT now).2 =
        completedRec url (mp3Target f) sz title startT now := by
  unfold finishDownload at h ⊢
  cases hloc : locateOutput files op with
  | none => simp [hloc, failedRec] at h
  | some f =>
    simp only [hloc] at h ⊢
    by_cases hsz : (lookupA (afterRename files f) (mp3Target f)).getD 0 < 100 * 1024
    · simp [hsz, failedRec] at h
    · exact ⟨f, _, rfl, hsz, rfl, by simp [hsz], by simp [hsz]⟩

/-- The record the worker stores at the end of a run is terminal. -/
theorem finishDownload_status (files : List (String × Nat)) (op url title : String)
    (startT now : Nat) :
    (finishDownload files op url title startT now).2.status = Status.completed ∨
      (finishDownload files op url title startT now).2.status = Status.failed := by
  unfold finishDownload
  cases hloc : locateOutput files op with
  | none => simp [failedRec]
  | some f =>
    by_cases hsz : (lookupA (afterRename files f) (mp3Target f)).getD 0 < 100 * 1024
    · simp [hsz, failedRec]
    · simp [hsz, completedRec]

-- Preservation of the invariant by every transition.

theorem lookupA_filter_some {α : Type} {l : List (String × α)} {k : String} {v : α}
    {p : String × α → Bool} (hnd : keysNodup l) (h : lookupA (l.filter p) k = some v) :
    lookupA l k = some v := by
  cases horig : lookupA l k with
  | none => rw [lookupA_filter_none p horig] at h; exact Option.noConfusion h
  | some v0 =>
    rw [lookupA_filter_eq p hnd horig] at h
    by_cases hp : p (k, v0)
    · rw [if_pos hp] at h
      cases h
      rfl
    · rw [if_neg hp] at h
      exact Option.noConfusion h

/-- The state after a fresh enqueue (the created branch of start_conversion). -/
theorem inv_created {s : Sys} (hI : SysInv s) (url t : String) (hf : t ∉ s.used) :
    SysInv { s with jobs := setA s.jobs t (queuedRec url),
                    workers := s.workers ++
                      [{ token := t, url := url, phase := WPhase.started }],
                    used := t :: s.used } := by
  have htok : ∀ w : Worker, w ∈ s.workers → w.token ≠ t := by
    intro w hw he
    exact hf (he ▸ hI.workersUsed w hw)
  constructor
  · exact keysNodup_setA s.jobs t (queuedRec url) hI.jobsNodup
  · intro t' j hj
    by_cases he : t' = t
    · exact he ▸ List.mem_cons_self t s.used
    · rw [lookupA_setA_ne s.jobs t t' (queuedRec url) he] at hj
      exact List.mem_cons_of_mem t (hI.jobsUsed t' j hj)
  · intro w hw
    rcases List.mem_append.mp hw with hw | hw
    · exact List.mem_cons_of_mem t (hI.workersUsed w hw)
    · simp at hw
      simp [hw]
  · simp only [List.map_append, List.map_cons, List.map_nil]
    refine List.Nodup.append hI.workersNodup (List.nodup_singleton t) ?_
    intro a ha hb
    simp at hb
    subst hb
    obtain ⟨w, hw, he⟩ := List.mem_map.mp ha
    exact htok w hw he
  · intro w hw hph
    rcases List.mem_append.mp hw with hw | hw
    · rw [lookupA_setA_ne s.jobs t w.token (queuedRec url) (htok w hw)]
      exact hI.startedRec w hw hph
    · simp at hw
      subst hw
      right
      exact ⟨queuedRec url, lookupA_setA_self s.jobs t (queuedRec url), rfl⟩
  · intro w op title hw hph
    rcases List.mem_append.mp hw with hw | hw
    · rw [lookupA_setA_ne s.jobs t w.token (queuedRec url) (htok w hw)]
      exact hI.downloadingRec w op title hw hph
    · simp at hw
      subst hw
      simp at hph
  · intro t' j hj hst
    by_cases he : t' = t
    · subst he
      rw [lookupA_setA_self] at hj
      cases hj
      simp [queuedRec] at hst
    · rw [lookupA_setA_ne s.jobs t t' (queuedRec url) he] at hj
      exact hI.completedSize t' j hj hst

theorem inv_enqueue {s : Sys} (hI : SysInv s) (url t : String) (hf : t ∉ s.used) :
    SysInv (start_conversion s url t).1 := by
  unfold start_conversion
  by_cases hc : url ∈ s.cc
  · cases hfp : findProcessing s.jobs url with
    | some existing => simpa [hc, hfp] using hI
    | none => simpa [hc, hfp] using inv_created hI url t hf
  · simpa [hc] using inv_created hI url t hf

/-- Writing any record at an in-flight task's token while removing that task. -/
theorem inv_write_remove {s : Sys} (hI : SysInv s) (w : Worker) (hw : w ∈ s.workers)
    (rec : Job) (cc' : List String) (files' : List (String × Nat))
    (hsz : rec.status = Status.completed → ∃ n, rec.file_size = some n ∧ 100 * 1024 ≤ n) :
    SysInv { s with jobs := setA s.jobs w.token rec, cc := cc', files := files',
                    workers := removeW s.workers w.token } := by
  constructor
  · exact keysNodup_setA s.jobs w.token rec hI.jobsNodup
  · intro t' j hj
    by_cases he : t' = w.token
    · exact he ▸ hI.workersUsed w hw
    · rw [lookupA_setA_ne s.jobs w.token t' rec he] at hj
      exact hI.jobsUsed t' j hj
  · intro w' hw'
    exact hI.workersUsed w' (mem_removeW.mp hw').1
  · exact hI.workersNodup.sublist ((List.filter_sublist s.workers).map Worker.token)
  · intro w' hw' hph
    obtain ⟨hmem, hne⟩ := mem_removeW.mp hw'
    rw [lookupA_setA_ne s.jobs w.token w'.token rec hne]
    exact hI.startedRec w' hmem hph
  · intro w' op title hw' hph
    obtain ⟨hmem, hne⟩ := mem_removeW.mp hw'
    rw [lookupA_setA_ne s.jobs w.token w'.token rec hne]
    exact hI.downloadingRec w' op title hmem hph
  · intro t' j hj hst
    by_cases he : t' = w.token
    · subst he
      rw [lookupA_setA_self] at hj
      cases hj
      exact hsz hst
    · rw [lookupA_setA_ne s.jobs w.token t' rec he] at hj
      exact hI.completedSize t' j hj hst

theorem inv_begin {s : Sys} (hI : SysInv s) (w : Worker) (hw : w ∈ s.workers)
    (cached : Option (Nat × VideoInfo)) (now : Nat) (ytdlp : Option VideoInfo)
    (api : Except String VideoInfo) :
    SysInv (applyBegin s w cached now ytdlp api) := by
  unfold applyBegin
  by_cases hdup : w.url ∈ s.cc
  · simp only [hdup, if_true]
    exact inv_write_remove hI w hw _ _ _ (by simp [failedRec])
  · simp only [hdup, if_false]
    cases hinfo : get_video_info w.url cached now ytdlp api with
    | error e =>
      exact inv_write_remove hI w hw _ _ _ (by simp [failedRec])
    | ok info =>
      set base := sanitize_filename info.title ++ "-" ++ info.id with hbase
      set rec := processingRec w.url (base ++ ".mp3") info.title now with hrec
      constructor
      · exact keysNodup_setA s.jobs w.token rec hI.jobsNodup
      · intro t' j hj
        by_cases he : t' = w.token
        · exact he ▸ hI.workersUsed w hw
        · rw [lookupA_setA_ne s.jobs w.token t' rec he] at hj
          exact hI.jobsUsed t' j hj
      · intro w' hw'
        obtain ⟨w0, hw0, he⟩ := mem_setW hw'
        have : w'.token = w0.token := by
          by_cases hc : w0.token = w.token <;> simp [he, hc]
        rw [this]
        exact hI.workersUsed w0 hw0
      · rw [tokens_setW]
        exact hI.workersNodup
      · intro w' hw' hph
        obtain ⟨w0, hw0, he⟩ := mem_setW hw'
        by_cases hc : w0.token = w.token
        · rw [if_pos hc] at he
          rw [he] at hph
          simp at hph
        · rw [if_neg hc] at he
          subst he
          rw [lookupA_setA_ne s.jobs w.token w'.token rec hc]
          exact hI.startedRec w' hw0 hph
      · intro w' op title hw' hph
        obtain ⟨w0, hw0, he⟩ := mem_setW hw'
        by_cases hc : w0.token = w.token
        · rw [if_pos hc] at he
          have htok : w'.token = w.token := by rw [he, hc]
          rw [htok, lookupA_setA_self]
          exact ⟨rec, rfl, by simp [hrec, processingRec]⟩
        · rw [if_neg hc] at he
          subst he
          rw [lookupA_setA_ne s.jobs w.token w'.token rec hc]
          exact hI.downloadingRec w' op title hw0 hph
      · intro t' j hj hst
        by_cases he : t' = w.token
        · subst he
          rw [lookupA_setA_self] at hj
          cases hj
          simp [processingRec] at hst
        · rw [lookupA_setA_ne s.jobs w.token t' rec he] at hj
          exact hI.completedSize t' j hj hst

theorem inv_run {s : Sys} (hI : SysInv s) (w : Worker) (op title : String)
    (outcome : Nat → YdlOpts → Option String) (written : List (String × Nat))
    (now : Nat) (hw : w ∈ s.workers) :
    SysInv (applyRun s w op title outcome written now) := by
  unfold applyRun
  cases hres : (runDownload outcome).2 with
  | some e =>
    exact inv_write_remove hI w hw _ _ _ (by simp [failedRec])
  | none =>
    refine inv_write_remove hI w hw _ _ _ ?_
    intro hst
    obtain ⟨f, sz, hloc, hszge, hszdef, hfls, hrec⟩ := finishDownload_completed hst
    rw [hrec]
    exact ⟨sz, by simp [completedRec], Nat.le_of_not_lt hszge⟩

/-- Mutating one record with a function that keeps status and file_size. -/
theorem inv_updateA {s : Sys} (hI : SysInv s) (tk : String) (f : Job → Job)
    (hstat : ∀ j, (f j).status = j.status)
    (hsize : ∀ j, (f j).file_size = j.file_size) :
    SysInv { s with jobs := updateA s.jobs tk f } := by
  constructor
  · exact keysNodup_updateA s.jobs tk f hI.jobsNodup
  · intro t' j hj
    by_cases he : t' = tk
    · subst he
      rw [lookupA_updateA_self] at hj
      cases horig : lookupA s.jobs t' with
      | none => rw [horig] at hj; exact Option.noConfusion hj
      | some j0 => exact hI.jobsUsed t' j0 horig
    · rw [lookupA_updateA_ne s.jobs tk t' f he] at hj
      exact hI.jobsUsed t' j hj
  · exact hI.workersUsed
  · exact hI.workersNodup
  · intro w' hw' hph
    by_cases he : w'.token = tk
    · subst he
      rw [lookupA_updateA_self]
      rcases hI.startedRec w' hw' hph with hn | ⟨j0, hj0, hst0⟩
      · left
        rw [hn]
        rfl
      · right
        exact ⟨f j0, by rw [hj0]; rfl, by rw [hstat j0, hst0]⟩
    · rw [lookupA_updateA_ne s.jobs tk w'.token f he]
      exact hI.startedRec w' hw' hph
  · intro w' op title hw' hph
    by_cases he : w'.token = tk
    · subst he
      rw [lookupA_updateA_self]
      obtain ⟨j0, hj0, hst0⟩ := hI.downloadingRec w' op title hw' hph
      exact ⟨f j0, by rw [hj0]; rfl, by rw [hstat j0, hst0]⟩
    · rw [lookupA_updateA_ne s.jobs tk w'.token f he]
      exact hI.downloadingRec w' op title hw' hph
  · intro t' j hj hst
    by_cases he : t' = tk
    · subst he
      rw [lookupA_updateA_self] at hj
      cases horig : lookupA s.jobs t' with
      | none => rw [horig] at hj; exact Option.noConfusion hj
      | some j0 =>
        rw [horig] at hj
        cases hj
        rw [hstat j0] at hst
        obtain ⟨n, hn, hge⟩ := hI.completedSize t' j0 horig hst
        exact ⟨n, by rw [hsize j0, hn], hge⟩
    · rw [lookupA_updateA_ne s.jobs tk t' f he] at hj
      exact hI.completedSize t' j hj hst

theorem inv_progress {s : Sys} (hI : SysInv s) (w : Worker) (msg : String) :
    SysInv (applyProgress s w msg) :=
  inv_updateA hI w.token _ (fun _ => rfl) (fun _ => rfl)

theorem inv_download {s : Sys} (hI : SysInv s) (t : String) (now : Nat) :
    SysInv (download_file s t now).1 := by
  unfold download_file
  cases hj : lookupA s.jobs t with
  | none => exact hI
  | some job =>
    dsimp only
    by_cases hst : job.status ≠ Status.completed
    · rw [if_pos hst]
      exact hI
    · rw [if_neg hst]
      cases hfp : job.file_path with
      | none => exact hI
      | some p =>
        dsimp only
        by_cases hex : (lookupA s.files p).isNone
        · rw [if_pos hex]
          exact hI
        · rw [if_neg hex]
          exact inv_updateA hI t _ (fun _ => rfl) (fun _ => rfl)

theorem inv_reap {s : Sys} (hI : SysInv s) (now : Nat) : SysInv (reapTick now s) := by
  unfold reapTick
  constructor
  · exact keysNodup_filter s.jobs _ hI.jobsNodup
  · intro t' j hj
    exact hI.jobsUsed t' j (lookupA_filter_some hI.jobsNodup hj)
  · exact hI.workersUsed
  · exact hI.workersNodup
  · intro w' hw' hph
    rcases hI.startedRec w' hw' hph with hn | ⟨j0, hj0, hst0⟩
    · left
      exact lookupA_filter_none _ hn
    · rw [lookupA_filter_eq _ hI.jobsNodup hj0]
      by_cases hp : (!(j0.expires_at.getD 0 < now && j0.status != Status.processing)) = true
      · right
        rw [if_pos hp]
        exact ⟨j0, rfl, hst0⟩
      · left
        rw [if_neg hp]
  · intro w' op title hw' hph
    obtain ⟨j0, hj0, hst0⟩ := hI.downloadingRec w' op title hw' hph
    rw [lookupA_filter_eq _ hI.jobsNodup hj0]
    rw [if_pos (by simp [hst0])]
    exact ⟨j0, rfl, hst0⟩
  · intro t' j hj hst
    exact hI.completedSize t' j (lookupA_filter_some hI.jobsNodup hj) hst

theorem inv_step {s s' : Sys} (hI : SysInv s) (hst : Step s s') : SysInv s' := by
  cases hst with
  | enqueue url t hf => exact inv_enqueue hI url t hf
  | workerBegin w hw hph cached now ytdlp api => exact inv_begin hI w hw cached now ytdlp api
  | workerRun w op title hw hph outcome written now =>
      exact inv_run hI w op title outcome written now hw
  | progressUpdate w op title hw hph msg => exact inv_progress hI w msg
  | download t now => exact inv_download hI t now
  | reap now hn => exact inv_reap hI now

theorem reachable_inv {s : Sys} (hr : Reachable s) : SysInv s := by
  induction hr with
  | refl => exact inv_init
  | tail _ hstep ih => exact inv_step ih hstep

-- Small facts feeding the monotonicity proof.

theorem mono_of_eq {j j' : Job} (h : j' = j) :
    stage j.status ≤ stage j'.status ∧
      (isTerminal j.status = true → j'.status = j.status) := by
  subst h
  exact ⟨le_refl _, fun _ => rfl⟩

theorem stage_le_two (st : Status) : stage st ≤ 2 := by
  cases st <;> simp [stage]

/-- C1: for every job token, the status only ever moves forward along
Queued, Processing, then a terminal state: no transition of the service
(enqueue, worker execution, progress update, download, reaper tick) lowers the
stage of a record's status, and a record whose status is terminal keeps exactly
that status for as long as the record exists. -/
theorem C1_status_monotone (s s' : Sys) (hr : Reachable s) (hst : Step s s')
    (t : String) (j j' : Job)
    (hj : lookupA s.jobs t = some j) (hj' : lookupA s'.jobs t = some j') :
    stage j.status ≤ stage j'.status ∧
      (isTerminal j.status = true → j'.status = j.status) := by
  have hI := reachable_inv hr
  cases hst with
  | enqueue url tk hf =>
    have hne : t ≠ tk := fun he => hf (he ▸ hI.jobsUsed t j hj)
    by_cases hc : url ∈ s.cc
    · cases hfp : findProcessing s.jobs url with
      | some existing =>
        simp only [start_conversion, hc, if_true, hfp] at hj'
        rw [hj] at hj'
        cases hj'
        exact mono_of_eq rfl
      | none =>
        simp only [start_conversion, hc, if_true, hfp] at hj'
        rw [lookupA_setA_ne s.jobs tk t (queuedRec url) hne, hj] at hj'
        cases hj'
        exact mono_of_eq rfl
    · simp only [start_conversion, hc, if_false] at hj'
      rw [lookupA_setA_ne s.jobs tk t (queuedRec url) hne, hj] at hj'
      cases hj'
      exact mono_of_eq rfl
  | workerBegin w hw hph cached now ytdlp api =>
    have hqueued : t = w.token → j.status = Status.queued := by
      intro he
      subst he
      rcases hI.startedRec w hw hph with hn | ⟨j0, hj0, hst0⟩
      · rw [hn] at hj
        exact Option.noConfusion hj
      · rw [hj0] at hj
        cases hj
        exact hst0
    by_cases hdup : w.url ∈ s.cc
    · simp only [applyBegin, hdup, if_true] at hj'
      by_cases he : t = w.token
      · rw [he, lookupA_setA_self] at hj'
        cases hj'
        rw [hqueued he]
        exact ⟨by simp [stage, failedRec], by simp [isTerminal]⟩
      · rw [lookupA_setA_ne s.jobs w.token t _ he, hj] at hj'
        cases hj'
        exact mono_of_eq rfl
    · simp only [applyBegin, hdup, if_false] at hj'
      cases hinfo : get_video_info w.url cached now ytdlp api with
      | error e =>
        rw [hinfo] at hj'
        by_cases he : t = w.token
        · rw [he, lookupA_setA_self] at hj'
          cases hj'
          rw [hqueued he]
          exact ⟨by simp [stage, failedRec], by simp [isTerminal]⟩
        · rw [lookupA_setA_ne s.jobs w.token t _ he, hj] at hj'
          cases hj'
          exact mono_of_eq rfl
      | ok info =>
        rw [hinfo] at hj'
        by_cases he : t = w.token
        · rw [he, lookupA_setA_self] at hj'
          cases hj'
          rw [hqueued he]
          exact ⟨by simp [stage, processingRec], by simp [isTerminal]⟩
        · rw [lookupA_setA_ne s.jobs w.token t _ he, hj] at hj'
          cases hj'
          exact mono_of_eq rfl
  | workerRun w op title hw hph outcome written now =>
    have hproc : t = w.token → j.status = Status.processing := by
      intro he
      subst he
      obtain ⟨j0, hj0, hst0⟩ := hI.downloadingRec w op title hw hph
      rw [hj0] at hj
      cases hj
      exact hst0
    cases hres : (runDownload outcome).2 with
    | some e =>
      simp only [applyRun, hres] at hj'
      by_cases he : t = w.token
      · rw [he, lookupA_setA_self] at hj'
        cases hj'
        rw [hproc he]
        exact ⟨by simp [stage, failedRec], by simp [isTerminal]⟩
      · rw [lookupA_setA_ne s.jobs w.token t _ he, hj] at hj'
        cases hj'
        exact mono_of_eq rfl
    | none =>
      simp only [applyRun, hres] at hj'
      by_cases he : t = w.token
      · rw [he, lookupA_setA_self] at hj'
        cases hj'
        rw [hproc he]
        constructor
        · rcases finishDownload_status (writeAll s.files written) op w.url title
            (((lookupA s.jobs w.token).bind Job.start_time).getD 0) now with hc | hc <;>
            simp [stage, hc]
        · simp [isTerminal]
      · rw [lookupA_setA_ne s.jobs w.token t _ he, hj] at hj'
        cases hj'
        exact mono_of_eq rfl
  | progressUpdate w op title hw hph msg =>
    simp only [applyProgress] at hj'
    by_cases he : t = w.token
    · subst he
      rw [lookupA_updateA_self, hj] at hj'
      cases hj'
      exact ⟨le_refl _, fun _ => rfl⟩
    · rw [lookupA_updateA_ne s.jobs w.token t _ (fun hh => he hh), hj] at hj'
      cases hj'
      exact mono_of_eq rfl
  | download tk now =>
    unfold download_file at hj'
    cases hjk : lookupA s.jobs tk with
    | none =>
      rw [hjk] at hj'
      rw [hj] at hj'
      cases hj'
      exact mono_of_eq rfl
    | some job =>
      rw [hjk] at hj'
      dsimp only at hj'
      by_cases hcs : job.status ≠ Status.completed
      · rw [if_pos hcs] at hj'
        rw [hj] at hj'
        cases hj'
        exact mono_of_eq rfl
      · rw [if_neg hcs] at hj'
        cases hfp : job.file_path with
        | none =>
          rw [hfp] at hj'
          rw [hj] at hj'
          cases hj'
          exact mono_of_eq rfl
        | some p =>
          rw [hfp] at hj'
          dsimp only at hj'
          by_cases hex : (lookupA s.files p).isNone
          · rw [if_pos hex] at hj'
            rw [hj] at hj'
            cases hj'
            exact mono_of_eq rfl
          · rw [if_neg hex] at hj'
            by_cases he : t = tk
            · subst he
              rw [lookupA_updateA_self, hj] at hj'
              cases hj'
              exact ⟨le_refl _, fun _ => rfl⟩
            · rw [lookupA_updateA_ne s.jobs tk t _ he, hj] at hj'
              cases hj'
              exact mono_of_eq rfl
  | reap now hn =>
    simp only [reapTick] at hj'
    have := lookupA_filter_some hI.jobsNodup hj'
    rw [hj] at this
    cases this
    exact mono_of_eq rfl

/-- Witness for C1 at a concrete reachable state and step: a queued record is
untouched by an unrelated enqueue. -/
def wUrl : String := "https://youtube.com/watch?v=abc"

def wSysA : Sys := (start_conversion initSys wUrl "T1").1

theorem C1_status_monotone_witness :
    stage (queuedRec wUrl).status ≤ stage (queuedRec wUrl).status ∧
      (isTerminal (queuedRec wUrl).status = true →
        (queuedRec wUrl).status = (queuedRec wUrl).status) :=
  C1_status_monotone wSysA (start_conversion wSysA "u2" "T2").1
    (Relation.ReflTransGen.single (Step.enqueue initSys wUrl "T1" (by decide)))
    (Step.enqueue wSysA "u2" "T2" (by decide))
    "T1" (queuedRec wUrl) (queuedRec wUrl) (by decide) (by decide)

-- Reaper characterization lemmas.

theorem reap_removes_iff {s : Sys} (hnd : keysNodup s.jobs) {now : Nat} {t : String}
    {j : Job} (hj : lookupA s.jobs t = some j) :
    (lookupA (reapTick now s).jobs t = none ↔
      (j.expires_at.getD 0 < now ∧ j.status ≠ Status.processing)) ∧
    (¬(j.expires_at.getD 0 < now ∧ j.status ≠ Status.processing) →
      lookupA (reapTick now s).jobs t = some j) := by
  simp only [reapTick]
  rw [lookupA_filter_eq _ hnd hj]
  by_cases h1 : j.expires_at.getD 0 < now
  · by_cases h2 : j.status = Status.processing
    · simp [h1, h2]
    · simp [h1, h2]
  · simp [h1]

theorem reapFiles_untouched {now : Nat} :
    ∀ (entries : List (String × Job)) (fs : List (String × Nat)) (p : String),
      (∀ tj, tj ∈ entries → tj.2.file_path = some p → ¬ tj.2.expires_at.getD 0 < now) →
      lookupA (reapFiles now fs entries) p = lookupA fs p := by
  intro entries
  induction entries with
  | nil =>
    intro fs p _
    rfl
  | cons hd tl ih =>
    intro fs p h
    have hstep : reapFiles now fs (hd :: tl) =
        reapFiles now
          (if hd.2.expires_at.getD 0 < now then
            match hd.2.file_path with
            | some q => if (lookupA fs q).isSome then eraseA fs q else fs
            | none => fs
          else fs) tl := rfl
    rw [hstep]
    have htl : ∀ tj, tj ∈ tl → tj.2.file_path = some p → ¬ tj.2.expires_at.getD 0 < now :=
      fun tj htj => h tj (List.mem_cons_of_mem hd htj)
    rw [ih _ p htl]
    by_cases hexp : hd.2.expires_at.getD 0 < now
    · rw [if_pos hexp]
      cases hfp : hd.2.file_path with
      | none => rfl
      | some q =>
        dsimp only
        have hq : q ≠ p := by
          intro he
          exact h hd (List.mem_cons_self hd tl) (he ▸ hfp) hexp
        by_cases hs : (lookupA fs q).isSome
        · rw [if_pos hs]
          exact lookupA_eraseA_ne fs q p (Ne.symm hq)
        · rw [if_neg hs]
    · rw [if_neg hexp]

/-- C3 as amended: on a reaper tick a record is removed exactly when its
expires_at - read as 0 when the field is absent - is in the past and its status
is not processing (so a processing record is never removed), and a file is
deleted from the downloads directory only when some record pointing at it has
such a past expires_at. -/
theorem C3_amended_reaper_discipline (s : Sys) (now : Nat) (hnd : keysNodup s.jobs) :
    (∀ t j, lookupA s.jobs t = some j →
      (lookupA (reapTick now s).jobs t = none ↔
        (j.expires_at.getD 0 < now ∧ j.status ≠ Status.processing))) ∧
    (∀ t j, lookupA s.jobs t = some j → j.status = Status.processing →
      lookupA (reapTick now s).jobs t = some j) ∧
    (∀ p, lookupA (reapTick now s).files p ≠ lookupA s.files p →
      ∃ t j, lookupA s.jobs t = some j ∧ j.file_path = some p ∧
        j.expires_at.getD 0 < now) := by
  refine ⟨?_, ?_, ?_⟩
  · intro t j hj
    exact (reap_removes_iff hnd hj).1
  · intro t j hj hst
    refine (reap_removes_iff hnd hj).2 ?_
    intro hc
    exact hc.2 hst
  · intro p hne
    by_contra hno
    push_neg at hno
    refine hne ?_
    simp only [reapTick]
    refine reapFiles_untouched s.jobs s.files p ?_
    intro tj htj hfp hexp
    have hlk : lookupA s.jobs tj.1 = some tj.2 := lookupA_of_mem_nodup (by
      obtain ⟨a, b⟩ := tj
      exact htj) hnd
    exact absurd hexp (by
      intro hx
      exact absurd hx (by
        have := hno tj.1 tj.2 hlk hfp
        simpa using this))

/-- Counterexample to C3 as stated: a freshly enqueued record has no expires_at
field at all, yet one reaper tick removes it - so records are not removed only
when they carry an expiresAt timestamp lying in the past. -/
theorem C3_counterexample :
    Reachable wSysA ∧
    Step wSysA (reapTick 1000 wSysA) ∧
    lookupA wSysA.jobs "T1" = some (queuedRec wUrl) ∧
    (queuedRec wUrl).expires_at = none ∧
    lookupA (reapTick 1000 wSysA).jobs "T1" = none :=
  ⟨Relation.ReflTransGen.single (Step.enqueue initSys wUrl "T1" (by decide)),
    Step.reap wSysA 1000 (by decide), by decide, by decide, by decide⟩

/-- Witness for C3 as amended, on the concrete one-job state: the queued record
is removed because its defaulted expiry 0 is past, and its removal is licensed
by the characterization. -/
theorem C3_amended_witness :
    (lookupA (reapTick 1000 wSysA).jobs "T1" = none ↔
      ((queuedRec wUrl).expires_at.getD 0 < 1000 ∧
        (queuedRec wUrl).status ≠ Status.processing)) :=
  (C3_amended_reaper_discipline wSysA 1000 (by decide)).1 "T1" (queuedRec wUrl) (by decide)

/-- C9: a single reaper tick removes every record that has no expires_at field
and whose status is not processing (in particular still-queued records and
failed records), because the missing field is read as 0 and 0 is always in the
past; polling the status of such a token afterwards yields the 404 Job not
found error. -/
theorem C9_missing_expiry_pruned (s : Sys) (now : Nat) (hnd : keysNodup s.jobs)
    (hpos : 0 < now) (t : String) (j : Job)
    (hj : lookupA s.jobs t = some j) (hexp : j.expires_at = none)
    (hst : j.status ≠ Status.processing) :
    lookupA (reapTick now s).jobs t = none ∧
      get_status (reapTick now s) t = Except.error (404, "Job not found") := by
  have h1 : lookupA (reapTick now s).jobs t = none := by
    rw [(reap_removes_iff hnd hj).1]
    exact ⟨by simp [hexp, hpos], hst⟩
  refine ⟨h1, ?_⟩
  simp [get_status, h1]

/-- Witness for C9 on the concrete one-job state: the queued record (which has
no expires_at) is gone after the tick and status polling 404s. -/
theorem C9_witness :
    lookupA (reapTick 5 wSysA).jobs "T1" = none ∧
      get_status (reapTick 5 wSysA) "T1" = Except.error (404, "Job not found") :=
  C9_missing_expiry_pruned wSysA 5 (by decide) (by decide) "T1" (queuedRec wUrl)
    (by decide) (by decide) (by decide)

-- Directory bookkeeping lemmas.

theorem keys_eraseA_sublist {α : Type} (l : List (String × α)) (k : String) :
    List.Sublist ((eraseA l k).map Prod.fst) (l.map Prod.fst) := by
  induction l with
  | nil => simp [eraseA]
  | cons hd tl ih =>
    obtain ⟨k1, v1⟩ := hd
    by_cases h1 : k1 = k
    · simp only [eraseA, h1, beq_self_eq_true, if_true, List.map_cons]
      exact List.sublist_cons_self k (tl.map Prod.fst)
    · simp only [eraseA]
      rw [if_neg (by simpa using h1)]
      simpa using ih.cons₂ k1

theorem keysNodup_eraseA {α : Type} (l : List (String × α)) (k : String)
    (hnd : keysNodup l) : keysNodup (eraseA l k) :=
  hnd.sublist (keys_eraseA_sublist l k)

theorem keysNodup_renameF (files : List (String × Nat)) (oldP newP : String)
    (hnd : keysNodup files) : keysNodup (renameF files oldP newP) := by
  unfold renameF
  cases lookupA files oldP with
  | none => exact hnd
  | some sz => exact keysNodup_setA _ _ _ (keysNodup_eraseA _ _ hnd)

theorem keysNodup_afterRename (files : List (String × Nat)) (f : String)
    (hnd : keysNodup files) : keysNodup (afterRename files f) := by
  unfold afterRename
  by_cases h : pyEndsWith f ".mp3"
  · rw [if_pos h]
    exact hnd
  · rw [if_neg h]
    exact keysNodup_renameF _ _ _ hnd

/-- C5: whenever the located output file is strictly smaller than 100 KiB
(100 * 1024 bytes), the worker deletes it from the downloads directory and the
stored record is Failed; consequently, in every reachable state, every record
with status Completed carries a file_size of at least 100 KiB. -/
theorem C5_undersized_outputs_rejected :
    (∀ (files : List (String × Nat)) (op url title : String) (startT now : Nat)
        (f : String),
      keysNodup files →
      locateOutput files op = some f →
      (lookupA (afterRename files f) (mp3Target f)).getD 0 < 100 * 1024 →
      lookupA (finishDownload files op url title startT now).1 (mp3Target f) = none ∧
        (finishDownload files op url title startT now).2.status = Status.failed) ∧
    (∀ s, Reachable s → ∀ t j, lookupA s.jobs t = some j →
      j.status = Status.completed → ∃ n, j.file_size = some n ∧ 100 * 1024 ≤ n) := by
  constructor
  · intro files op url title startT now f hnd hloc hsz
    unfold finishDownload
    rw [hloc]
    dsimp only
    rw [if_pos hsz]
    refine ⟨?_, by simp [failedRec]⟩
    exact lookupA_eraseA_self _ _ (keysNodup_afterRename files f hnd)
  · intro s hr t j hj hst
    exact (reachable_inv hr).completedSize t j hj hst

/-- Witness for C5 at a concrete run: a 5-byte .part output is deleted and the
record is Failed. -/
theorem C5_witness :
    lookupA (finishDownload [("downloads/x-id.part", 5)] "downloads/x-id" wUrl "x" 0 100).1
        (mp3Target "downloads/x-id.part") = none ∧
      (finishDownload [("downloads/x-id.part", 5)] "downloads/x-id" wUrl "x"
        0 100).2.status = Status.failed :=
  C5_undersized_outputs_rejected.1 [("downloads/x-id.part", 5)] "downloads/x-id" wUrl "x"
    0 100 "downloads/x-id.part" (by decide) (by decide) (by decide)

-- Concrete executions used by the counterexamples.

/-- A resolver result for wUrl. -/
def infoAbc : VideoInfo :=
  { title := "Song", duration := 100, thumbnail := "th", uploader := "up",
    view_count := 5, id := "abc" }

def w1started : Worker := { token := "T1", url := wUrl, phase := WPhase.started }

def w1down : Worker :=
  { token := "T1", url := wUrl, phase := WPhase.downloading "downloads/Song-abc" "Song" }

def w2started : Worker := { token := "T2", url := wUrl, phase := WPhase.started }

/-- wUrl enqueued twice before either worker slice ran (both tasks race). -/
def wSysB : Sys := (start_conversion wSysA wUrl "T2").1

/-- Worker T1 ran its first slice on wSysB: wUrl joined current_conversions and
T1 moved to processing. -/
def wSysC2 : Sys := applyBegin wSysB w1started none 100 (some infoAbc) (Except.error "a")

/-- Worker T2 then ran its first slice: the in-worker duplicate check raised,
T2 failed, and the finally discard removed T1's membership of
current_conversions. -/
def wSysD : Sys := applyBegin wSysC2 w2started none 100 none (Except.error "b")

/-- Worker T1 ran its first slice directly on wSysA (single-submission run). -/
def wSysP : Sys := applyBegin wSysA w1started none 100 (some infoAbc) (Except.error "a")

def outcomeFail : Nat → YdlOpts → Option String := fun _ _ => some "network unreachable"

/-- All three attempts of T1's retry loop failed, with the extractor leaving a
50000-byte partial download behind. -/
def wSysE : Sys :=
  applyRun wSysP w1down "downloads/Song-abc" "Song" outcomeFail
    [("downloads/Song-abc.part", 50000)] 200

theorem reach_wSysA : Reachable wSysA :=
  Relation.ReflTransGen.single (Step.enqueue initSys wUrl "T1" (by decide))

theorem reach_wSysB : Reachable wSysB :=
  Relation.ReflTransGen.tail reach_wSysA (Step.enqueue wSysA wUrl "T2" (by decide))

theorem reach_wSysC2 : Reachable wSysC2 :=
  Relation.ReflTransGen.tail reach_wSysB
    (Step.workerBegin wSysB w1started (by decide) rfl none 100 (some infoAbc)
      (Except.error "a"))

theorem reach_wSysD : Reachable wSysD :=
  Relation.ReflTransGen.tail reach_wSysC2
    (Step.workerBegin wSysC2 w2started (by decide) rfl none 100 none (Except.error "b"))

theorem reach_wSysP : Reachable wSysP :=
  Relation.ReflTransGen.tail reach_wSysA
    (Step.workerBegin wSysA w1started (by decide) rfl none 100 (some infoAbc)
      (Except.error "a"))

theorem reach_wSysE : Reachable wSysE :=
  Relation.ReflTransGen.tail reach_wSysP
    (Step.workerRun wSysP w1down "downloads/Song-abc" "Song" (by decide) rfl outcomeFail
      [("downloads/Song-abc.part", 50000)] 200)

/-- Strings built by appending a suffix end with that suffix. -/
theorem pyEndsWith_append (x y : String) : pyEndsWith (x ++ y) y = true := by
  unfold pyEndsWith
  rw [String.data_append]
  rw [List.isSuffixOf_iff_suffix]
  exact List.suffix_append x.data y.data

/-- Counterexample to C4 as stated: a reachable run in which every extractor
attempt failed and a 50000-byte partial download (.part file) was left in the
downloads directory; the job ends Failed, yet the partial artifact remains on
disk - nothing in the code deletes partial artifacts of failed runs. -/
theorem C4_counterexample :
    Reachable wSysE ∧
    lookupA wSysE.jobs "T1" = some (failedRec wUrl "network unreachable" "Song") ∧
    lookupA wSysE.files "downloads/Song-abc.part" = some 50000 :=
  ⟨reach_wSysE, by decide, by decide⟩

/-- C4 as amended: a job completing the output-validation segment with status
Completed records a file_path that names an existing file in the resulting
directory whose recorded size is at least 100 KiB and whose name ends in .mp3
(the undersized case deletes the file and fails instead); a Failed job, however,
may leave partial artifacts from its attempts on disk, since only an undersized
located output is ever deleted. -/
theorem C4_amended_completed_artifact (files : List (String × Nat))
    (op url title : String) (startT now : Nat)
    (hc : (finishDownload files op url title startT now).2.status = Status.completed) :
    ∃ p n, (finishDownload files op url title startT now).2.file_path = some p ∧
      (finishDownload files op url title startT now).2.file_size = some n ∧
      lookupA (finishDownload files op url title startT now).1 p = some n ∧
      100 * 1024 ≤ n ∧
      pyEndsWith p ".mp3" = true := by
  obtain ⟨f, sz, hloc, hszge, hszdef, hfls, hrec⟩ := finishDownload_completed hc
  refine ⟨mp3Target f, sz, by rw [hrec]; simp [completedRec], by rw [hrec]; simp [completedRec],
    ?_, Nat.le_of_not_lt hszge, ?_⟩
  · rw [hfls]
    cases hlk : lookupA (afterRename files f) (mp3Target f) with
    | none =>
      rw [hlk] at hszdef
      exfalso
      apply hszge
      simp at hszdef
      omega
    | some v =>
      rw [hlk] at hszdef
      simp at hszdef
      rw [hszdef]
  · unfold mp3Target
    by_cases he : pyEndsWith f ".mp3"
    · rw [if_pos he]
      exact he
    · rw [if_neg he]
      exact pyEndsWith_append (pyStripLastDot f) ".mp3"

/-- Witness for C4 as amended at a concrete successful run: a 200000-byte .mp3
output is kept, recorded, and served-ready. -/
theorem C4_amended_witness :
    ∃ p n,
      (finishDownload [("downloads/x-id.mp3", 200000)] "downloads/x-id" wUrl "x"
        0 100).2.file_path = some p ∧
      (finishDownload [("downloads/x-id.mp3", 200000)] "downloads/x-id" wUrl "x"
        0 100).2.file_size = some n ∧
      lookupA (finishDownload [("downloads/x-id.mp3", 200000)] "downloads/x-id" wUrl "x"
        0 100).1 p = some n ∧
      100 * 1024 ≤ n ∧
      pyEndsWith p ".mp3" = true :=
  C4_amended_completed_artifact [("downloads/x-id.mp3", 200000)] "downloads/x-id" wUrl "x"
    0 100 (by decide)

/-- C7: GET /download/token answers a 404 exactly when the token has no record,
or the record is not Completed, or it records no file path, or the recorded
file is absent from the downloads directory; in every other case it serves the
recorded file as an attachment under the record's filename and rewrites the
record's expires_at to now plus the retention window (10 minutes). -/
theorem C7_download_endpoint (s : Sys) (token : String) (now : Nat) :
    ((∃ msg, (download_file s token now).2 = Except.error (404, msg)) ↔
      ¬∃ j p sz, lookupA s.jobs token = some j ∧ j.status = Status.completed ∧
        j.file_path = some p ∧ lookupA s.files p = some sz) ∧
    (∀ j p sz, lookupA s.jobs token = some j → j.status = Status.completed →
      j.file_path = some p → lookupA s.files p = some sz →
      (download_file s token now).2 = Except.ok (p, j.filename.getD "") ∧
        lookupA (download_file s token now).1.jobs token =
          some { j with expires_at := some (now + FILE_EXPIRY_MINUTES * 60) }) := by
  unfold download_file
  cases hjk : lookupA s.jobs token with
  | none =>
    refine ⟨⟨fun _ h => ?_, fun _ => ⟨"File not ready or expired", rfl⟩⟩, ?_⟩
    · obtain ⟨j, p, sz, hj, _⟩ := h
      exact Option.noConfusion hj
    · intro j p sz hj
      exact absurd hj (by simp)
  | some job =>
    dsimp only
    by_cases hcs : job.status ≠ Status.completed
    · rw [if_pos hcs]
      refine ⟨⟨fun _ h => ?_, fun _ => ⟨"File not ready or expired", rfl⟩⟩, ?_⟩
      · obtain ⟨j, p, sz, hj, hst, _⟩ := h
        cases hj
        exact hcs hst
      · intro j p sz hj hst
        cases hj
        exact absurd hst hcs
    · rw [if_neg hcs]
      push_neg at hcs
      cases hfp : job.file_path with
      | none =>
        refine ⟨⟨fun _ h => ?_, fun _ => ⟨"File not found", rfl⟩⟩, ?_⟩
        · obtain ⟨j, p, sz, hj, _, hp, _⟩ := h
          cases hj
          rw [hfp] at hp
          exact Option.noConfusion hp
        · intro j p sz hj _ hp
          cases hj
          rw [hfp] at hp
          exact absurd hp (by simp)
      | some p =>
        dsimp only
        by_cases hex : (lookupA s.files p).isNone
        · rw [if_pos hex]
          refine ⟨⟨fun _ h => ?_, fun _ => ⟨"File not found", rfl⟩⟩, ?_⟩
          · obtain ⟨j, q, sz, hj, _, hq, hlk⟩ := h
            cases hj
            rw [hfp] at hq
            cases hq
            rw [hlk] at hex
            simp at hex
          · intro j q sz hj _ hq hlk
            cases hj
            rw [hfp] at hq
            cases hq
            rw [hlk] at hex
            simp at hex
        · rw [if_neg hex]
          refine ⟨⟨fun h => ?_, fun h => ?_⟩, ?_⟩
          · obtain ⟨msg, hmsg⟩ := h
            exact Except.noConfusion hmsg
          · exfalso
            apply h
            cases hlk : lookupA s.files p with
            | none => rw [hlk] at hex; simp at hex
            | some sz => exact ⟨job, p, sz, rfl, hcs, hfp, hlk⟩
          · intro j q sz hj _ hq _
            cases hj
            rw [hfp] at hq
            cases hq
            refine ⟨rfl, ?_⟩
            rw [lookupA_updateA_self, hjk]
            rfl

/-- A concrete completed record used by the C7 witness. -/
def cJob : Job := completedRec wUrl "downloads/Song-abc.mp3" 200000 "Song" 100 200

/-- A concrete served-ready state used by the C7 witness. -/
def wSysF : Sys :=
  { jobs := [("T1", cJob)], cc := [], files := [("downloads/Song-abc.mp3", 200000)],
    workers := [], used := ["T1"] }

/-- Witness for C7: downloading the completed job serves its file under its
recorded filename and pushes expires_at to now + 600. -/
theorem C7_witness :
    (download_file wSysF "T1" 1000).2 =
      Except.ok ("downloads/Song-abc.mp3", cJob.filename.getD "") ∧
    lookupA (download_file wSysF "T1" 1000).1.jobs "T1" =
      some { cJob with expires_at := some (1000 + FILE_EXPIRY_MINUTES * 60) } :=
  (C7_download_endpoint wSysF "T1" 1000).2 cJob "downloads/Song-abc.mp3" 200000
    (by decide) (by decide) (by decide) (by decide)

/-- Exhaustive description of the retry loop: it succeeds at attempt 0, at
attempt 1 after one relaxation, or reaches attempt 2 whose outcome (success or
the final error) becomes the loop's result. -/
theorem runDownload_cases (outcome : Nat → YdlOpts → Option String) :
    (outcome 0 (optsSeq 0) = none ∧
      runDownload outcome = ([DlEvent.invoke 0 (optsSeq 0)], none)) ∨
    (∃ e0, outcome 0 (optsSeq 0) = some e0 ∧ outcome 1 (optsSeq 1) = none ∧
      runDownload outcome =
        ([DlEvent.invoke 0 (optsSeq 0), DlEvent.sleep 2, DlEvent.invoke 1 (optsSeq 1)],
          none)) ∨
    (∃ e0 e1, outcome 0 (optsSeq 0) = some e0 ∧ outcome 1 (optsSeq 1) = some e1 ∧
      runDownload outcome =
        ([DlEvent.invoke 0 (optsSeq 0), DlEvent.sleep 2, DlEvent.invoke 1 (optsSeq 1),
          DlEvent.sleep 2, DlEvent.invoke 2 (optsSeq 2)], outcome 2 (optsSeq 2))) := by
  cases h0 : outcome 0 (optsSeq 0) with
  | none =>
    left
    refine ⟨rfl, ?_⟩
    simp only [runDownload, downloadLoop, maxAttempts]
    rw [show (optsSeq 0) = initialOpts from rfl] at h0
    rw [h0]
    rfl
  | some e0 =>
    cases h1 : outcome 1 (optsSeq 1) with
    | none =>
      right; left
      refine ⟨e0, rfl, rfl, ?_⟩
      simp only [runDownload, downloadLoop, maxAttempts]
      rw [show (optsSeq 0) = initialOpts from rfl] at h0
      rw [h0]
      simp only [show (1 : Nat) + 1 + 1 = 3 from rfl]
      norm_num
      rw [show relaxOpts 0 initialOpts = optsSeq 1 from rfl, h1]
      simp [optsSeq]
    | some e1 =>
      cases h2 : outcome 2 (optsSeq 2) with
      | none =>
        right; right
        refine ⟨e0, e1, rfl, rfl, ?_⟩
        simp only [runDownload, downloadLoop, maxAttempts]
        rw [show (optsSeq 0) = initialOpts from rfl] at h0
        rw [h0]
        norm_num
        rw [show relaxOpts 0 initialOpts = optsSeq 1 from rfl, h1]
        norm_num
        rw [show relaxOpts 1 (optsSeq 1) = optsSeq 2 from rfl, h2]
        simp [optsSeq]
      | some e2 =>
        right; right
        refine ⟨e0, e1, rfl, rfl, ?_⟩
        simp only [runDownload, downloadLoop, maxAttempts]
        rw [show (optsSeq 0) = initialOpts from rfl] at h0
        rw [h0]
        norm_num
        rw [show relaxOpts 0 initialOpts = optsSeq 1 from rfl, h1]
        norm_num
        rw [show relaxOpts 1 (optsSeq 1) = optsSeq 2 from rfl, h2]
        simp [optsSeq, h2]

/-- C6: the worker invokes the extractor at most 3 times per job; every backoff
between attempts is exactly 2 seconds; the options of the successive attempts
follow the relaxation schedule optsSeq (format and player_client rewritten
after each failure as in lines 372-373); and when the loop ends in failure, all
3 attempts ran, the surfaced error is the last attempt's error, and the worker
stores a Failed record carrying exactly that error. -/
theorem C6_retry_policy (outcome : Nat → YdlOpts → Option String) :
    (invokesOf (runDownload outcome).1).length ≤ 3 ∧
    (∀ n, DlEvent.sleep n ∈ (runDownload outcome).1 → n = 2) ∧
    (∃ k, k ≤ 3 ∧ invokesOf (runDownload outcome).1 =
      (List.range k).map (fun i => (i, optsSeq i))) ∧
    (∀ e, (runDownload outcome).2 = some e →
      invokesOf (runDownload outcome).1 =
        [(0, optsSeq 0), (1, optsSeq 1), (2, optsSeq 2)] ∧
      outcome 2 (optsSeq 2) = some e) ∧
    (∀ (s : Sys) (w : Worker) (op title : String) (written : List (String × Nat))
        (now : Nat) (e : String), (runDownload outcome).2 = some e →
      lookupA (applyRun s w op title outcome written now).jobs w.token =
        some (failedRec w.url e title)) := by
  have happly : ∀ (s : Sys) (w : Worker) (op title : String)
      (written : List (String × Nat)) (now : Nat) (e : String),
      (runDownload outcome).2 = some e →
      lookupA (applyRun s w op title outcome written now).jobs w.token =
        some (failedRec w.url e title) := by
    intro s w op title written now e hsome
    simp only [applyRun, hsome]
    exact lookupA_setA_self s.jobs w.token (failedRec w.url e title)
  rcases runDownload_cases outcome with ⟨h0, hrd⟩ | ⟨e0, h0, h1, hrd⟩ |
    ⟨e0, e1, h0, h1, hrd⟩
  · refine ⟨?_, ?_, ⟨1, by norm_num, ?_⟩, ?_, happly⟩
    · rw [hrd]
      decide
    · intro n hn
      rw [hrd] at hn
      simp at hn
    · rw [hrd]
      decide
    · intro e he
      rw [hrd] at he
      exact Option.noConfusion he
  · refine ⟨?_, ?_, ⟨2, by norm_num, ?_⟩, ?_, happly⟩
    · rw [hrd]
      decide
    · intro n hn
      rw [hrd] at hn
      simp at hn
      exact hn
    · rw [hrd]
      decide
    · intro e he
      rw [hrd] at he
      exact Option.noConfusion he
  · refine ⟨?_, ?_, ⟨3, by norm_num, ?_⟩, ?_, happly⟩
    · rw [hrd]
      dsimp only
      decide
    · intro n hn
      rw [hrd] at hn
      simp at hn
      exact hn
    · rw [hrd]
      dsimp only
      decide
    · intro e he
      rw [hrd] at he
      simp at he
      exact ⟨by rw [hrd]; dsimp only; decide, he⟩

/-- Witness for C6: under an extractor that always fails, all three attempts
run under the relaxation schedule and the last error is surfaced. -/
theorem C6_witness :
    invokesOf (runDownload outcomeFail).1 =
      [(0, optsSeq 0), (1, optsSeq 1), (2, optsSeq 2)] ∧
    outcomeFail 2 (optsSeq 2) = some "network unreachable" :=
  ((C6_retry_policy outcomeFail).2.2.2.1) "network unreachable" (by decide)

/-- C2 as amended: submitting a URL returns the existing Processing job's token
and leaves the state unchanged provided the URL is still a member of
current_conversions; membership can be lost while a Processing job exists (see
the counterexample), in which case a fresh job is created instead. -/
theorem C2_amended_duplicate_suppression (s : Sys) (url t tok : String)
    (hmem : url ∈ s.cc) (hfind : findProcessing s.jobs url = some tok) :
    (start_conversion s url t).2 = tok ∧ (start_conversion s url t).1 = s := by
  simp [start_conversion, hmem, hfind]

/-- Counterexample to C2 as stated: in the reachable state wSysD the url has a
Processing job under token T1, yet POST /convert for the same url mints the
fresh token T3 and creates a new queued record - because the worker that failed
its duplicate check already discarded the url from current_conversions. -/
theorem C2_counterexample :
    Reachable wSysD ∧
    lookupA wSysD.jobs "T1" = some (processingRec wUrl "Song-abc.mp3" "Song" 100) ∧
    wSysD.cc = [] ∧
    Step wSysD (start_conversion wSysD wUrl "T3").1 ∧
    (start_conversion wSysD wUrl "T3").2 = "T3" ∧
    ("T3" : String) ≠ "T1" ∧
    lookupA wSysD.jobs "T3" = none ∧
    lookupA (start_conversion wSysD wUrl "T3").1.jobs "T3" = some (queuedRec wUrl) :=
  ⟨reach_wSysD, by decide, by decide, Step.enqueue wSysD wUrl "T3" (by decide),
    by decide, by decide, by decide, by decide⟩

/-- Witness for C2 as amended, in the state where the first worker has set
status processing and the url is still in current_conversions: resubmission
returns T1 and changes nothing. -/
theorem C2_amended_witness :
    (start_conversion wSysC2 wUrl "T9").2 = "T1" ∧
      (start_conversion wSysC2 wUrl "T9").1 = wSysC2 :=
  C2_amended_duplicate_suppression wSysC2 wUrl "T9" "T1" (by decide) (by decide)

/-- No task with the given token survives removeW. -/
theorem token_not_mem_removeW (ws : List Worker) (t : String) :
    t ∉ (removeW ws t).map Worker.token := by
  intro h
  obtain ⟨w, hw, he⟩ := List.mem_map.mp h
  exact (mem_removeW.mp hw).2 he

/-- C8 as amended: the url joins current_conversions at the start of worker
execution (before extraction begins), and every terminating worker slice
discards the url exactly once - on the failure paths of the first slice the
set is restored (add then discard), and the run slice always ends in
current_conversions.erase url with the task gone; but the discard is
unconditional, so a worker that failed its in-worker duplicate check removes
the membership added by a different in-flight worker for the same url (see the
counterexample). -/
theorem C8_amended_active_set_discipline :
    (∀ (s : Sys) (w : Worker) (cached : Option (Nat × VideoInfo)) (now : Nat)
        (ytdlp : Option VideoInfo) (api : Except String VideoInfo) (info : VideoInfo),
      w.url ∉ s.cc →
      get_video_info w.url cached now ytdlp api = Except.ok info →
      w.url ∈ (applyBegin s w cached now ytdlp api).cc) ∧
    (∀ (s : Sys) (w : Worker) (cached : Option (Nat × VideoInfo)) (now : Nat)
        (ytdlp : Option VideoInfo) (api : Except String VideoInfo) (e : String),
      w.url ∉ s.cc →
      get_video_info w.url cached now ytdlp api = Except.error e →
      (applyBegin s w cached now ytdlp api).cc = s.cc ∧
        w.token ∉ (applyBegin s w cached now ytdlp api).workers.map Worker.token) ∧
    (∀ (s : Sys) (w : Worker) (cached : Option (Nat × VideoInfo)) (now : Nat)
        (ytdlp : Option VideoInfo) (api : Except String VideoInfo),
      w.url ∈ s.cc →
      (applyBegin s w cached now ytdlp api).cc = eraseS w.url s.cc ∧
        w.token ∉ (applyBegin s w cached now ytdlp api).workers.map Worker.token) ∧
    (∀ (s : Sys) (w : Worker) (op title : String)
        (outcome : Nat → YdlOpts → Option String) (written : List (String × Nat))
        (now : Nat),
      (applyRun s w op title outcome written now).cc = eraseS w.url s.cc ∧
        w.token ∉ (applyRun s w op title outcome written now).workers.map Worker.token) := by
  refine ⟨?_, ?_, ?_, ?_⟩
  · intro s w cached now ytdlp api info hnm hok
    simp only [applyBegin, hnm, if_false, hok]
    simp [insertS, hnm]
  · intro s w cached now ytdlp api e hnm herr
    simp only [applyBegin, hnm, if_false, herr]
    refine ⟨?_, token_not_mem_removeW s.workers w.token⟩
    exact eraseS_insertS_of_not_mem hnm
  · intro s w cached now ytdlp api hmem
    refine ⟨?_, ?_⟩
    · simp [applyBegin, hmem]
    · simp only [applyBegin, hmem, if_true]
      exact token_not_mem_removeW s.workers w.token
  · intro s w op title outcome written now
    unfold applyRun
    cases (runDownload outcome).2 with
    | some e => exact ⟨rfl, token_not_mem_removeW s.workers w.token⟩
    | none => exact ⟨rfl, token_not_mem_removeW s.workers w.token⟩

/-- Counterexample to C8 as stated: worker T2 failed its in-worker duplicate
check without ever adding the url, yet its finally discard removed the
membership added by worker T1, which is still in flight with a Processing
record - so a failed conversion can remove the membership of a different
in-flight conversion of the same URL. -/
theorem C8_counterexample :
    Reachable wSysC2 ∧
    wSysC2.cc = [wUrl] ∧
    w1down ∈ wSysC2.workers ∧
    Step wSysC2 wSysD ∧
    wSysD.cc = [] ∧
    w1down ∈ wSysD.workers ∧
    lookupA wSysD.jobs "T1" = some (processingRec wUrl "Song-abc.mp3" "Song" 100) ∧
    lookupA wSysD.jobs "T2" =
      some (failedRec wUrl "400: This video is already being converted" "Unknown") :=
  ⟨reach_wSysC2, by decide, by decide,
    Step.workerBegin wSysC2 w2started (by decide) rfl none 100 none (Except.error "b"),
    by decide, by decide, by decide, by decide⟩

/-- Witness for C8 as amended: instantiating the duplicate-check branch at the
concrete race state shows the discard of T1's membership. -/
theorem C8_amended_witness :
    (applyBegin wSysC2 w2started none 100 none (Except.error "b")).cc =
      eraseS w2started.url wSysC2.cc ∧
    w2started.token ∉
      (applyBegin wSysC2 w2started none 100 none (Except.error "b")).workers.map
        Worker.token :=
  (C8_amended_active_set_discipline.2.2.1) wSysC2 w2started none 100 none
    (Except.error "b") (by decide)

/-- C10: every URL containing youtube.com but neither v= nor youtu.be yields no
video id from get_video_id, makes get_video_info raise Invalid YouTube URL no
matter what the cache, yt-dlp or API would say, makes POST /video/metadata
answer 400 with that message, and makes the conversion worker's first slice end
the job Failed with that error; yet such URLs can pass the request validator's
regex, as https://www.youtube.com/watch does. -/
theorem C10_invalid_watch_urls :
    (∀ url : String,
      pyContains url "youtube.com" = true →
      pyContains url "v=" = false →
      pyContains url "youtu.be" = false →
      get_video_id url = none ∧
      (∀ (cached : Option (Nat × VideoInfo)) (now : Nat) (ytdlp : Option VideoInfo)
          (api : Except String VideoInfo),
        get_video_info url cached now ytdlp api = Except.error "Invalid YouTube URL" ∧
        get_metadata url cached now ytdlp api =
          Except.error (400, "Invalid YouTube URL")) ∧
      (∀ (s : Sys) (w : Worker) (cached : Option (Nat × VideoInfo)) (now : Nat)
          (ytdlp : Option VideoInfo) (api : Except String VideoInfo),
        w.url = url → w.url ∉ s.cc →
        lookupA (applyBegin s w cached now ytdlp api).jobs w.token =
          some (failedRec w.url "Invalid YouTube URL" "Unknown"))) ∧
    (youtubeRegexMatch "https://www.youtube.com/watch" = true ∧
      pyContains "https://www.youtube.com/watch" "youtube.com" = true ∧
      pyContains "https://www.youtube.com/watch" "v=" = false ∧
      pyContains "https://www.youtube.com/watch" "youtu.be" = false) := by
  constructor
  · intro url h1 h2 h3
    have hid : get_video_id url = none := by
      simp [get_video_id, h1, h2, h3]
    have hinfo : ∀ (cached : Option (Nat × VideoInfo)) (now : Nat)
        (ytdlp : Option VideoInfo) (api : Except String VideoInfo),
        get_video_info url cached now ytdlp api = Except.error "Invalid YouTube URL" := by
      intro cached now ytdlp api
      simp [get_video_info, hid]
    refine ⟨hid, fun cached now ytdlp api => ⟨hinfo cached now ytdlp api, ?_⟩, ?_⟩
    · simp [get_metadata, hinfo cached now ytdlp api]
    · intro s w cached now ytdlp api hurl hnm
      have hinfo2 : get_video_info w.url cached now ytdlp api =
          Except.error "Invalid YouTube URL" := by
        rw [hurl]
        exact hinfo cached now ytdlp api
      simp only [applyBegin, hnm, if_false, hinfo2]
      exact lookupA_setA_self s.jobs w.token
        (failedRec w.url "Invalid YouTube URL" "Unknown")
  · exact ⟨by decide, by decide, by decide, by decide⟩

/-- Witness for C10 at the concrete URL https://www.youtube.com/watch. -/
theorem C10_witness :
    get_video_id "https://www.youtube.com/watch" = none ∧
    get_video_info "https://www.youtube.com/watch" none 50 none (Except.error "api") =
      Except.error "Invalid YouTube URL" ∧
    get_metadata "https://www.youtube.com/watch" none 50 none (Except.error "api") =
      Except.error (400, "Invalid YouTube URL") :=
  ⟨(C10_invalid_watch_urls.1 "https://www.youtube.com/watch" (by decide) (by decide)
      (by decide)).1,
    ((C10_invalid_watch_urls.1 "https://www.youtube.com/watch" (by decide) (by decide)
      (by decide)).2.1 none 50 none (Except.error "api")).1,
    ((C10_invalid_watch_urls.1 "https://www.youtube.com/watch" (by decide) (by decide)
      (by decide)).2.1 none 50 none (Except.error "api")).2⟩
